import Mathlib

set_option maxHeartbeats 1000000

/-!
Verification development for the Toolforge volume-admission webhook
(`server/admission.go`).  The admission decision engine is embedded as pure
Lean functions over a Pod data model; the response carries the patch list in
deserialized form, and JSON serialization of the patch is abstracted by a
`marshalErr` oracle (the real encoder never fails on these values, which is
the `marshalNever` instantiation).
-/

/-- One container environment variable (corev1.EnvVar, name/value subset). -/
structure EnvVar where
  name : String
  value : String
deriving DecidableEq

/-- One volume mount of a container (corev1.VolumeMount subset). -/
structure VolumeMount where
  mountPath : String
  name : String
  readOnly : Bool
deriving DecidableEq

/-- A hostPath volume source (corev1.HostPathVolumeSource). -/
structure HostPathSource where
  path : String
  hostPathType : String
deriving DecidableEq

/-- A declared Pod volume: a name and an optional hostPath source; any other
volume source (secret, configMap, ...) is represented by `hostPath = none`. -/
structure PodVolume where
  name : String
  hostPath : Option HostPathSource
deriving DecidableEq

/-- A Pod container: the fields the engine reads.  `env = none` models a Go
nil `Env` slice (JSON field absent), `some []` an explicitly empty one;
`workingDir = ""` models an absent working directory (Go zero value). -/
structure Container where
  name : String
  workingDir : String
  env : Option (List EnvVar)
  volumeMounts : List VolumeMount
deriving DecidableEq

/-- The Pod subset the engine reads: labels, volumes, containers and the
nodeSelector (`none` models a nil map). -/
structure Pod where
  labels : List (String × String)
  volumes : List PodVolume
  containers : List Container
  nodeSelector : Option (List (String × String))
deriving DecidableEq

/-- One policy volume descriptor (the `Volume` struct of the source). -/
structure Volume where
  name : String
  path : String
  hostPathType : String
  readOnly : Bool
deriving DecidableEq

/-- The webhook state: the configured volume policy (`VolumeAdmission`). -/
structure VolumeAdmission where
  Volumes : List Volume
deriving DecidableEq

/-- The dynamic `interface\x7b\x7d` payload of a patch operation, as a tagged
union of the concrete payload shapes the source constructs. -/
inductive PatchValue where
  | emptyArray : PatchValue
  | podVolume (name hostPathPath hostPathType : String) : PatchValue
  | volumeMount (m : VolumeMount) : PatchValue
  | emptyEnvArray : PatchValue
  | envVar (e : EnvVar) : PatchValue
  | emptyMap : PatchValue
  | str (s : String) : PatchValue
deriving DecidableEq

/-- A JSON-Patch operation (the `PatchOperation` struct of the source). -/
structure PatchOperation where
  op : String
  path : String
  value : Option PatchValue
deriving DecidableEq

/-- The inbound admission request: correlation UID, target namespace, and the
result of decoding the raw Pod bytes (json.Unmarshal outcome). -/
structure AdmissionRequest where
  UID : String
  Namespace : String
  Object : Except String Pod

/-- The outbound admission response.  `Patch` holds the deserialized form of
the serialized patch bytes (`none` = no patch attached); `Allowed` defaults
to false in responses that do not set it. -/
structure AdmissionResponse where
  UID : String
  Allowed : Bool
  Message : String
  PatchType : Option String
  Patch : Option (List PatchOperation)
deriving DecidableEq

def MountConfigLabel : String := "toolforge.org/mount-storage"

def MountAll : String := "all"

def MountNone : String := "none"

/-- First-match lookup in an association list (Go map read). -/
def lookupKV : List (String × String) → String → Option String
  | [], _ => none
  | (k, v) :: rest, key => if k = key then some v else lookupKV rest key

/-- getLabelOrDefault from the source: label value, defaulting when absent. -/
def getLabelOrDefault (pod : Pod) (label : String) (defaultValue : String) : String :=
  match lookupKV pod.labels label with
  | some value => value
  | none => defaultValue

/-- hasMountByPath from the source. -/
def hasMountByPath (container : Container) (path : String) : Bool :=
  container.volumeMounts.any (fun mount => mount.mountPath == path)

/-- hasVolumeByName from the source. -/
def hasVolumeByName (pod : Pod) (name : String) : Bool :=
  pod.volumes.any (fun volume => volume.name == name)

/-- hasEnvVarSet from the source (a nil Env slice iterates as empty). -/
def hasEnvVarSet (container : Container) (envVar : String) : Bool :=
  (container.env.getD []).any (fun env => env.name == envVar)

/-- Does the pattern match at the head of the character list. -/
def charsMatchAtStart : List Char → List Char → Bool
  | [], _ => true
  | _ :: _, [] => false
  | p :: ps, c :: cs => p == c && charsMatchAtStart ps cs

/-- strings.HasPrefix of the Go standard library. -/
def hasPrefixStr (s pre : String) : Bool :=
  charsMatchAtStart pre.data s.data

/-- strings.Replace with count 1 (replace the first occurrence only),
character-list worker. -/
def replaceFirstChars (pat rep : List Char) : List Char → List Char
  | [] => if charsMatchAtStart pat [] then rep else []
  | c :: cs =>
    if charsMatchAtStart pat (c :: cs) then rep ++ (c :: cs).drop pat.length
    else c :: replaceFirstChars pat rep cs

/-- strings.Replace(s, pat, rep, 1) of the Go standard library. -/
def replaceFirst (s pat rep : String) : String :=
  String.mk (replaceFirstChars pat.data rep.data s.data)

/-- The decimal digit character for n < 10. -/
def digitChar (n : Nat) : Char := Char.ofNat (48 + n)

/-- Decimal rendering of a natural number (fuel-driven so it reduces). -/
def decCharsAux : Nat → Nat → List Char
  | 0, _ => []
  | fuel + 1, n =>
    if n < 10 then [digitChar n]
    else decCharsAux fuel (n / 10) ++ [digitChar (n % 10)]

/-- fmt.Sprintf("%d", n): decimal rendering of a container index. -/
def natDec (n : Nat) : String := String.mk (decCharsAux (n + 1) n)

def containerVmInitPath (i : Nat) : String :=
  "/spec/containers/" ++ natDec i ++ "/volumeMounts"

def containerVmDashPath (i : Nat) : String :=
  "/spec/containers/" ++ natDec i ++ "/volumeMounts/-"

def containerEnvInitPath (i : Nat) : String :=
  "/spec/containers/" ++ natDec i ++ "/env"

def containerEnvDashPath (i : Nat) : String :=
  "/spec/containers/" ++ natDec i ++ "/env/-"

def containerWorkingDirPath (i : Nat) : String :=
  "/spec/containers/" ++ natDec i ++ "/workingDir"

/-- Go range-with-index over a list, starting at the given index. -/
def enumIdx {α : Type} (start : Nat) : List α → List (Nat × α)
  | [] => []
  | a :: as => (start, a) :: enumIdx (start + 1) as

/-- The hostPath scan of the source (lines 138-159): the first declared
volume carrying a hostPath source other than the exact ("home",
"/data/project") exception, together with its index. -/
def findBadHostPath (start : Nat) : List PodVolume → Option (Nat × PodVolume)
  | [] => none
  | volume :: rest =>
    match volume.hostPath with
    | some hp =>
      if volume.name ≠ "home" ∨ hp.path ≠ "/data/project" then some (start, volume)
      else findBadHostPath (start + 1) rest
    | none => findBadHostPath (start + 1) rest

def volumesInitPatch : PatchOperation :=
  ⟨"add", "/spec/volumes", some PatchValue.emptyArray⟩

/-- The `/spec/volumes` array initialization, emitted exactly when the Pod
declared no volumes (the else branch of the hostPath scan). -/
def volumesInitPatches (pod : Pod) : List PatchOperation :=
  if pod.volumes.isEmpty then [volumesInitPatch] else []

def vmInitOp (i : Nat) : PatchOperation :=
  ⟨"add", containerVmInitPath i, some PatchValue.emptyArray⟩

/-- volumeMounts array initialization for every container with an empty (or
nil) VolumeMounts slice (source lines 195-206). -/
def vmInitPatches (containers : List Container) : List PatchOperation :=
  (enumIdx 0 containers).filterMap (fun p =>
    if p.2.volumeMounts.isEmpty then some (vmInitOp p.1) else none)

def volumeAddOp (volume : Volume) : PatchOperation :=
  ⟨"add", "/spec/volumes/-",
   some (PatchValue.podVolume volume.name volume.path volume.hostPathType)⟩

def mountAddOp (i : Nat) (volume : Volume) : PatchOperation :=
  ⟨"add", containerVmDashPath i,
   some (PatchValue.volumeMount ⟨volume.path, volume.name, volume.readOnly⟩)⟩

/-- The mount additions of one policy volume: every container not already
mounting the volume path gets an append (source lines 229-245). -/
def mountPatchesForVolume (containers : List Container) (volume : Volume) :
    List PatchOperation :=
  (enumIdx 0 containers).filterMap (fun p =>
    if hasMountByPath p.2 volume.path then none else some (mountAddOp p.1 volume))

/-- The policy-volume loop (source lines 208-246): per policy volume, skip
when a volume with that name exists, else append the volume and its mounts. -/
def policyVolumePatches (vols : List Volume) (pod : Pod) : List PatchOperation :=
  (vols.map (fun volume =>
    if hasVolumeByName pod volume.name then []
    else volumeAddOp volume :: mountPatchesForVolume pod.containers volume)).flatten

/-- The tool home directory: "/data/project/" ++ the namespace with the first
occurrence of "tool-" removed (source lines 277-278). -/
def toolHome (ns : String) : String :=
  "/data/project/" ++ replaceFirst ns "tool-" ""

def envInitOp (i : Nat) : PatchOperation :=
  ⟨"add", containerEnvInitPath i, some PatchValue.emptyEnvArray⟩

def workingDirRemoveOp (i : Nat) : PatchOperation :=
  ⟨"remove", containerWorkingDirPath i, none⟩

def homeAddOp (ns : String) (i : Nat) : PatchOperation :=
  ⟨"add", containerEnvDashPath i, some (PatchValue.envVar ⟨"HOME", toolHome ns⟩)⟩

def tddAddOp (ns : String) (i : Nat) : PatchOperation :=
  ⟨"add", containerEnvDashPath i, some (PatchValue.envVar ⟨"TOOL_DATA_DIR", toolHome ns⟩)⟩

/-- The per-container env block (source lines 248-296): env array init when
Env is nil; workingDir removal when NO_HOME is set and workingDir nonempty;
HOME append unless HOME or NO_HOME is set (skipSettingHome); TOOL_DATA_DIR
append always. -/
def envPatchesForContainer (ns : String) (i : Nat) (c : Container) :
    List PatchOperation :=
  (if c.env = none then [envInitOp i] else [])
  ++ (if hasEnvVarSet c "NO_HOME" ∧ c.workingDir ≠ "" then [workingDirRemoveOp i] else [])
  ++ (if hasEnvVarSet c "HOME" ∨ hasEnvVarSet c "NO_HOME" then []
      else [homeAddOp ns i])
  ++ [tddAddOp ns i]

/-- The env loop over all containers. -/
def envPatchesAll (ns : String) (containers : List Container) : List PatchOperation :=
  ((enumIdx 0 containers).map (fun p => envPatchesForContainer ns p.1 p.2)).flatten

def nodeSelectorInitOp : PatchOperation :=
  ⟨"add", "/spec/nodeSelector", some PatchValue.emptyMap⟩

def nfsLabelOp : PatchOperation :=
  ⟨"add", "/spec/nodeSelector/kubernetes.wmcloud.org~1nfs-mounted",
   some (PatchValue.str "true")⟩

/-- The nodeSelector block (source lines 298-317): initialize a nil
nodeSelector (the local variable is then the empty map), then add the
nfs-mounted scheduling label when the key is absent. -/
def nodeSelectorPatches (pod : Pod) : List PatchOperation :=
  (match pod.nodeSelector with
   | none => [nodeSelectorInitOp]
   | some _ => [])
  ++ (match lookupKV (pod.nodeSelector.getD []) "kubernetes.wmcloud.org/nfs-mounted" with
      | some _ => []
      | none => [nfsLabelOp])

/-- The full mount-mode "all" patch list in emission order. -/
def buildPatches (adm : VolumeAdmission) (ns : String) (pod : Pod) :
    List PatchOperation :=
  volumesInitPatches pod
    ++ vmInitPatches pod.containers
    ++ policyVolumePatches adm.Volumes pod
    ++ envPatchesAll ns pod.containers
    ++ nodeSelectorPatches pod

/-- A response that only carries the UID and a status message: Allowed
defaults to false, no patch and no patch type. -/
def denyResponse (uid msg : String) : AdmissionResponse :=
  ⟨uid, false, msg, none, none⟩

/-- The hostPath denial message (the Go %s rendering of the pointer is
abstracted to the hostPath path). -/
def hostPathDenyMessage (idx : Nat) (volume : PodVolume) : String :=
  "No hostPath volumes allowed, got one under /spec/volumes/" ++ natDec idx
    ++ " Name:" ++ volume.name
    ++ " HostPath:" ++ (match volume.hostPath with | some hp => hp.path | none => "")

/-- HandleAdmission (source lines 88-345), with JSON patch serialization
abstracted by `marshalErr` (`none` = encoding succeeds).  On the mount-mode
"none" path a serialization failure builds the error response but then
unconditionally overwrites review.Response with the allow response (source
lines 180-191), which this definition reproduces faithfully. -/
def HandleAdmissionWith (adm : VolumeAdmission)
    (marshalErr : List PatchOperation → Option String)
    (req : AdmissionRequest) : AdmissionResponse :=
  match req.Object with
  | Except.error e => denyResponse req.UID e
  | Except.ok pod =>
    let mountConfig := getLabelOrDefault pod MountConfigLabel MountAll
    if mountConfig ≠ MountAll ∧ mountConfig ≠ MountNone then
      denyResponse req.UID ("Invalid value for " ++ MountConfigLabel ++ " label")
    else if ¬ hasPrefixStr req.Namespace "tool-" then
      denyResponse req.UID "Only tools can have tool volumes mounted to them"
    else
      match findBadHostPath 0 pod.volumes with
      | some (idx, volume) => denyResponse req.UID (hostPathDenyMessage idx volume)
      | none =>
        if mountConfig = MountNone then
          ⟨req.UID, true, "No volumes requested", some "JSONPatch",
           match marshalErr (volumesInitPatches pod) with
           | some _ => none
           | none => some (volumesInitPatches pod)⟩
        else
          match marshalErr (buildPatches adm req.Namespace pod) with
          | some e => denyResponse req.UID e
          | none =>
            ⟨req.UID, true, "Volumes mounted", some "JSONPatch",
             some (buildPatches adm req.Namespace pod)⟩

/-- The real JSON encoder never fails on the emitted patch values. -/
def marshalNever : List PatchOperation → Option String := fun _ => none

/-- HandleAdmission under the real (never-failing) patch encoder. -/
def HandleAdmission (adm : VolumeAdmission) (req : AdmissionRequest) :
    AdmissionResponse :=
  HandleAdmissionWith adm marshalNever req

/-- Does a JSON-Pointer path end in the array-append marker (slash dash). -/
def endsWithDash (p : String) : Bool :=
  match p.data.reverse with
  | c1 :: c2 :: _ => c1 == '-' && c2 == '/'
  | _ => false

/-- The parent path of an array-append path: the path with the trailing two
characters removed. -/
def dropDash (p : String) : String :=
  String.mk ((p.data.reverse.drop 2).reverse)

/-- The parent array of an append path already exists on the input Pod:
either the declared volumes array, a container's volumeMounts slice, or a
container's (non-nil) env slice. -/
def arrayExists (pod : Pod) (parent : String) : Prop :=
  (parent = "/spec/volumes" ∧ pod.volumes ≠ []) ∨
  (∃ i c, pod.containers[i]? = some c ∧ parent = containerVmInitPath i ∧
    c.volumeMounts ≠ []) ∨
  (∃ i c, pod.containers[i]? = some c ∧ parent = containerEnvInitPath i ∧
    c.env ≠ none)

/-- Modelled from the spec: RFC-6902 application of one emitted operation to
a container, by the consumer (the API server); this application code is not
part of the repository.  Only the operation shapes the engine emits are
interpreted; an add at an existing location replaces it, an add at an
append path appends, a remove of workingDir resets it to the absent (zero)
value. -/
def applyOpContainer (op : PatchOperation) (i : Nat) (c : Container) : Container :=
  if op.op = "add" ∧ op.path = containerVmInitPath i then
    { c with volumeMounts := [] }
  else if op.op = "add" ∧ op.path = containerVmDashPath i then
    match op.value with
    | some (PatchValue.volumeMount m) => { c with volumeMounts := c.volumeMounts ++ [m] }
    | _ => c
  else if op.op = "add" ∧ op.path = containerEnvInitPath i then
    { c with env := some [] }
  else if op.op = "add" ∧ op.path = containerEnvDashPath i then
    match op.value with
    | some (PatchValue.envVar e) => { c with env := some (c.env.getD [] ++ [e]) }
    | _ => c
  else if op.op = "remove" ∧ op.path = containerWorkingDirPath i then
    { c with workingDir := "" }
  else c

/-- Modelled from the spec: RFC-6902 application of one emitted operation to
the Pod, by the consumer (the API server); this application code is not part
of the repository.  The JSON-Pointer escape tilde-1 in the nodeSelector key
decodes to a literal slash. -/
def applyOp (pod : Pod) (op : PatchOperation) : Pod :=
  if op.op = "add" ∧ op.path = "/spec/volumes" then
    { pod with volumes := [] }
  else if op.op = "add" ∧ op.path = "/spec/volumes/-" then
    match op.value with
    | some (PatchValue.podVolume n p t) =>
      { pod with volumes := pod.volumes ++ [⟨n, some ⟨p, t⟩⟩] }
    | _ => pod
  else if op.op = "add" ∧ op.path = "/spec/nodeSelector" then
    { pod with nodeSelector := some [] }
  else if op.op = "add" ∧ op.path = "/spec/nodeSelector/kubernetes.wmcloud.org~1nfs-mounted" then
    match op.value with
    | some (PatchValue.str v) =>
      { pod with nodeSelector := some (pod.nodeSelector.getD [] ++
          [("kubernetes.wmcloud.org/nfs-mounted", v)]) }
    | _ => pod
  else
    { pod with containers := (enumIdx 0 pod.containers).map (fun p => applyOpContainer op p.1 p.2) }

/-- Modelled from the spec: applying the whole emitted patch strictly in
emission order. -/
def applyPatch (pod : Pod) (ops : List PatchOperation) : Pod :=
  ops.foldl applyOp pod

/-- The reference two-volume policy of the test corpus: ("home",
"/data/project", read-write) and ("etc-ldap", "/etc/ldap", read-only). -/
def referenceVolumes : List Volume :=
  [⟨"home", "/data/project", "", false⟩, ⟨"etc-ldap", "/etc/ldap", "", true⟩]

def referenceAdmission : VolumeAdmission := ⟨referenceVolumes⟩

/-- A container with no env, no volumeMounts and no workingDir. -/
def plainContainer : Container := ⟨"test", "", none, []⟩

/-- A Pod with zero declared volumes, one plain container, no labels and no
nodeSelector. -/
def plainPod : Pod := ⟨[], [], [plainContainer], none⟩

/-- The Pod of the reference test TestServerMountsAllVolumesWhenNoneExist:
like `plainPod` but with a pre-existing unrelated nodeSelector entry. -/
def nodeSelectorPod : Pod := ⟨[], [], [plainContainer], some [("foo", "bar")]⟩

/-! Generic list and string lemmas used throughout the development. -/

theorem data_append (s t : String) : (s ++ t).data = s.data ++ t.data := rfl

theorem mem_left_of_split {α : Type} {X Y pre suf : List α} {op : α}
    (heq : X ++ Y = pre ++ op :: suf) (hnot : op ∉ X) : ∀ a ∈ X, a ∈ pre := by
  induction X generalizing pre with
  | nil => intro a ha; cases ha
  | cons x X ih =>
    intro a ha
    cases pre with
    | nil =>
      rw [List.cons_append, List.nil_append] at heq
      injection heq with h1 _
      subst h1
      exact absurd (List.mem_cons_self x X) hnot
    | cons p pre =>
      rw [List.cons_append, List.cons_append] at heq
      injection heq with h1 h2
      rcases List.mem_cons.mp ha with h | h
      · subst h; rw [h1]; exact List.mem_cons_self p pre
      · exact List.mem_cons_of_mem p
          (ih h2 (fun hmem => hnot (List.mem_cons_of_mem x hmem)) a h)

theorem enumIdx_fst_le {α : Type} {s : Nat} {l : List α} :
    ∀ p ∈ enumIdx s l, s ≤ p.1 := by
  induction l generalizing s with
  | nil => intro p hp; cases hp
  | cons a as ih =>
    intro p hp
    rcases List.mem_cons.mp hp with h | h
    · subst h; exact Nat.le_refl s
    · exact Nat.le_of_succ_le (ih p h)

theorem mem_enumIdx {α : Type} {s i : Nat} {a : α} {l : List α}
    (h : (i, a) ∈ enumIdx s l) : s ≤ i ∧ l[i - s]? = some a := by
  induction l generalizing s with
  | nil => cases h
  | cons x xs ih =>
    rcases List.mem_cons.mp h with h1 | h1
    · injection h1 with hi ha
      subst ha
      rw [hi]
      exact ⟨Nat.le_refl s, by simp⟩
    · obtain ⟨hle, hget⟩ := ih h1
      refine ⟨Nat.le_of_succ_le hle, ?_⟩
      have hd : i - s = (i - (s + 1)) + 1 := by omega
      rw [hd, List.getElem?_cons_succ]
      exact hget

theorem get_mem_enumIdx {α : Type} {k : Nat} {a : α} {l : List α} (s : Nat)
    (h : l[k]? = some a) : (s + k, a) ∈ enumIdx s l := by
  induction l generalizing s k with
  | nil => simp at h
  | cons x xs ih =>
    cases k with
    | zero =>
      rw [List.getElem?_cons_zero] at h
      injection h with h
      subst h
      exact List.mem_cons_self (s + 0, x) _
    | succ k =>
      rw [List.getElem?_cons_succ] at h
      have hmem := ih (s + 1) h
      have heq : s + (k + 1) = (s + 1) + k := by omega
      rw [heq]
      exact List.mem_cons_of_mem _ hmem

theorem enumIdx_split_fst_lt {α : Type} {s : Nat} {l : List α}
    {E1 E2 : List (Nat × α)} {q : Nat × α}
    (h : enumIdx s l = E1 ++ q :: E2) : ∀ p ∈ E1, p.1 < q.1 := by
  induction l generalizing s E1 with
  | nil =>
    intro p hp
    cases E1 <;> simp [enumIdx] at h
  | cons x xs ih =>
    intro p hp
    cases E1 with
    | nil => cases hp
    | cons e E1 =>
      rw [show enumIdx s (x :: xs) = (s, x) :: enumIdx (s + 1) xs from rfl,
        List.cons_append] at h
      injection h with h1 h2
      rcases List.mem_cons.mp hp with hp1 | hp1
      · have hq : q ∈ enumIdx (s + 1) xs := by
          rw [h2]; exact List.mem_append_right _ (List.mem_cons_self _ _)
        have hle := enumIdx_fst_le q hq
        subst hp1
        rw [← h1]
        omega
      · exact ih h2 p hp1

theorem charsMatchAtStart_exists {pat s : List Char}
    (h : charsMatchAtStart pat s = true) : ∃ rest, s = pat ++ rest := by
  induction pat generalizing s with
  | nil => exact ⟨s, rfl⟩
  | cons p ps ih =>
    cases s with
    | nil => simp [charsMatchAtStart] at h
    | cons c cs =>
      rw [show charsMatchAtStart (p :: ps) (c :: cs)
            = (p == c && charsMatchAtStart ps cs) from rfl] at h
      obtain ⟨h1, h2⟩ := Bool.and_eq_true_iff.mp h
      obtain ⟨rest, hr⟩ := ih h2
      refine ⟨rest, ?_⟩
      rw [List.cons_append, ← (beq_iff_eq.mp h1), hr]

theorem replaceFirstChars_of_match {pat rep s : List Char}
    (h : charsMatchAtStart pat s = true) :
    replaceFirstChars pat rep s = rep ++ s.drop pat.length := by
  cases s with
  | nil =>
    rw [show replaceFirstChars pat rep []
          = if charsMatchAtStart pat [] then rep else [] from rfl, if_pos h]
    simp
  | cons c cs =>
    rw [show replaceFirstChars pat rep (c :: cs)
          = if charsMatchAtStart pat (c :: cs) then rep ++ (c :: cs).drop pat.length
            else c :: replaceFirstChars pat rep cs from rfl, if_pos h]

theorem replaceFirst_toolPrefix {ns : String} (h : hasPrefixStr ns "tool-" = true) :
    replaceFirst ns "tool-" "" = String.mk (ns.data.drop 5) := by
  unfold replaceFirst
  rw [replaceFirstChars_of_match h]
  rfl

theorem decCharsAux_ne_nil {fuel n : Nat} (h : n < fuel) :
    decCharsAux fuel n ≠ [] := by
  cases fuel with
  | zero => omega
  | succ f =>
    rw [decCharsAux]
    split
    · simp
    · simp

theorem digitChar_lt_inj : ∀ a < 10, ∀ b < 10, digitChar a = digitChar b → a = b := by
  decide

theorem decCharsAux_inj : ∀ f1 : Nat, ∀ {f2 a b : Nat}, a < f1 → b < f2 →
    decCharsAux f1 a = decCharsAux f2 b → a = b := by
  intro f1
  induction f1 with
  | zero => intro f2 a b h; omega
  | succ f ih =>
    intro f2 a b ha hb h
    cases f2 with
    | zero => omega
    | succ f2' =>
      rw [decCharsAux, decCharsAux] at h
      by_cases h1 : a < 10 <;> by_cases h2 : b < 10
      · rw [if_pos h1, if_pos h2] at h
        injection h with hx _
        exact digitChar_lt_inj a h1 b h2 hx
      · rw [if_pos h1, if_neg h2] at h
        have hlen := congrArg List.length h
        cases hl : decCharsAux f2' (b / 10) with
        | nil => exact absurd hl (decCharsAux_ne_nil (by omega))
        | cons y ys => rw [hl] at hlen; simp at hlen
      · rw [if_neg h1, if_pos h2] at h
        have hlen := congrArg List.length h
        cases hl : decCharsAux f (a / 10) with
        | nil => exact absurd hl (decCharsAux_ne_nil (by omega))
        | cons y ys => rw [hl] at hlen; simp at hlen
      · rw [if_neg h1, if_neg h2] at h
        have h' := congrArg List.reverse h
        rw [List.reverse_append, List.reverse_append] at h'
        simp only [List.reverse_cons, List.reverse_nil, List.nil_append,
          List.singleton_append] at h'
        injection h' with hx hrest
        have hmod : a % 10 = b % 10 :=
          digitChar_lt_inj _ (Nat.mod_lt _ (by omega)) _ (Nat.mod_lt _ (by omega)) hx
        have hdiv : a / 10 = b / 10 :=
          ih (by omega) (by omega) (List.reverse_injective hrest)
        omega

theorem natDec_inj {a b : Nat} (h : natDec a = natDec b) : a = b :=
  decCharsAux_inj (a + 1) (Nat.lt_succ_self a) (Nat.lt_succ_self b)
    (congrArg String.data h)

theorem string_append_assoc (a b c : String) : a ++ b ++ c = a ++ (b ++ c) := by
  apply String.ext
  rw [data_append, data_append, data_append, data_append, List.append_assoc]

theorem containerEnvDashPath_inj {i j : Nat}
    (h : containerEnvDashPath i = containerEnvDashPath j) : i = j := by
  have hd := congrArg String.data h
  rw [containerEnvDashPath, containerEnvDashPath, data_append, data_append,
    data_append, data_append] at hd
  exact natDec_inj (String.ext (List.append_cancel_left
    (List.append_cancel_right hd)))

theorem endsWithDash_append_suffix (s t : String) (h : 2 ≤ t.data.length) :
    endsWithDash (s ++ t) = endsWithDash t := by
  unfold endsWithDash
  rw [data_append, List.reverse_append]
  cases ht : t.data.reverse with
  | nil =>
    have hd : t.data = [] := by simpa using congrArg List.reverse ht
    rw [hd] at h
    simp at h
  | cons c1 rest =>
    cases rest with
    | nil =>
      have hd : t.data = [c1] := by simpa using congrArg List.reverse ht
      rw [hd] at h
      simp at h
    | cons c2 rest2 =>
      rw [List.cons_append, List.cons_append]

theorem endsWithDash_dash (s : String) : endsWithDash (s ++ "/-") = true := by
  rw [endsWithDash_append_suffix s "/-" (by decide)]
  decide

theorem dropDash_dash (s : String) : dropDash (s ++ "/-") = s := by
  unfold dropDash
  rw [data_append, show ("/-" : String).data = ['/', '-'] from rfl,
    List.reverse_append,
    show (['/', '-'] : List Char).reverse = ['-', '/'] from rfl,
    show ∀ l : List Char, (['-', '/'] ++ l).drop 2 = l from fun _ => rfl,
    List.reverse_reverse]

theorem containerVmDashPath_eq (i : Nat) :
    containerVmDashPath i = containerVmInitPath i ++ "/-" := by
  unfold containerVmDashPath containerVmInitPath
  rw [string_append_assoc ("/spec/containers/" ++ natDec i) "/volumeMounts" "/-",
    show ("/volumeMounts" : String) ++ "/-" = "/volumeMounts/-" from by decide]

theorem containerEnvDashPath_eq (i : Nat) :
    containerEnvDashPath i = containerEnvInitPath i ++ "/-" := by
  unfold containerEnvDashPath containerEnvInitPath
  rw [string_append_assoc ("/spec/containers/" ++ natDec i) "/env" "/-",
    show ("/env" : String) ++ "/-" = "/env/-" from by decide]

theorem endsWithDash_vmInitPath (i : Nat) :
    endsWithDash (containerVmInitPath i) = false := by
  unfold containerVmInitPath
  rw [endsWithDash_append_suffix _ "/volumeMounts" (by decide)]
  decide

theorem endsWithDash_envInitPath (i : Nat) :
    endsWithDash (containerEnvInitPath i) = false := by
  unfold containerEnvInitPath
  rw [endsWithDash_append_suffix _ "/env" (by decide)]
  decide

theorem mem_volumesInitPatches {pod : Pod} {op : PatchOperation}
    (h : op ∈ volumesInitPatches pod) : op = volumesInitPatch ∧ pod.volumes = [] := by
  unfold volumesInitPatches at h
  by_cases hemp : pod.volumes.isEmpty = true
  · rw [if_pos hemp] at h
    exact ⟨List.mem_singleton.mp h, List.isEmpty_iff.mp hemp⟩
  · rw [if_neg hemp] at h
    cases h

theorem mem_vmInitPatches {cs : List Container} {op : PatchOperation}
    (h : op ∈ vmInitPatches cs) :
    ∃ i c, (i, c) ∈ enumIdx 0 cs ∧ c.volumeMounts = [] ∧ op = vmInitOp i := by
  unfold vmInitPatches at h
  obtain ⟨p, hp, hop⟩ := List.mem_filterMap.mp h
  by_cases hemp : p.2.volumeMounts.isEmpty = true
  · rw [if_pos hemp] at hop
    injection hop with hop
    exact ⟨p.1, p.2, hp, List.isEmpty_iff.mp hemp, hop.symm⟩
  · rw [if_neg hemp] at hop
    cases hop

theorem mem_mountPatchesForVolume {cs : List Container} {v : Volume}
    {op : PatchOperation} (h : op ∈ mountPatchesForVolume cs v) :
    ∃ i c, (i, c) ∈ enumIdx 0 cs ∧ hasMountByPath c v.path = false ∧
      op = mountAddOp i v := by
  unfold mountPatchesForVolume at h
  obtain ⟨p, hp, hop⟩ := List.mem_filterMap.mp h
  by_cases hm : hasMountByPath p.2 v.path = true
  · rw [if_pos hm] at hop; cases hop
  · rw [if_neg hm] at hop
    injection hop with hop
    exact ⟨p.1, p.2, hp, Bool.eq_false_iff.mpr hm, hop.symm⟩

theorem mem_policyVolumePatches {vols : List Volume} {pod : Pod}
    {op : PatchOperation} (h : op ∈ policyVolumePatches vols pod) :
    ∃ v ∈ vols, hasVolumeByName pod v.name = false ∧
      (op = volumeAddOp v ∨
       ∃ i c, (i, c) ∈ enumIdx 0 pod.containers ∧ hasMountByPath c v.path = false ∧
         op = mountAddOp i v) := by
  unfold policyVolumePatches at h
  obtain ⟨l, hl, hop⟩ := List.mem_flatten.mp h
  obtain ⟨v, hv, hleq⟩ := List.mem_map.mp hl
  subst hleq
  by_cases hn : hasVolumeByName pod v.name = true
  · rw [if_pos hn] at hop; cases hop
  · rw [if_neg hn] at hop
    rcases List.mem_cons.mp hop with h1 | h1
    · exact ⟨v, hv, Bool.eq_false_iff.mpr hn, Or.inl h1⟩
    · obtain ⟨i, c, hic, hm, hopeq⟩ := mem_mountPatchesForVolume h1
      exact ⟨v, hv, Bool.eq_false_iff.mpr hn, Or.inr ⟨i, c, hic, hm, hopeq⟩⟩

theorem mem_envPatchesForContainer {ns : String} {i : Nat} {c : Container}
    {op : PatchOperation} (h : op ∈ envPatchesForContainer ns i c) :
    (c.env = none ∧ op = envInitOp i) ∨
    (hasEnvVarSet c "NO_HOME" = true ∧ c.workingDir ≠ "" ∧
      op = workingDirRemoveOp i) ∨
    (hasEnvVarSet c "HOME" = false ∧ hasEnvVarSet c "NO_HOME" = false ∧
      op = homeAddOp ns i) ∨
    op = tddAddOp ns i := by
  unfold envPatchesForContainer at h
  rcases List.mem_append.mp h with h1 | h1
  · rcases List.mem_append.mp h1 with h2 | h2
    · rcases List.mem_append.mp h2 with h3 | h3
      · by_cases he : c.env = none
        · rw [if_pos he] at h3
          exact Or.inl ⟨he, List.mem_singleton.mp h3⟩
        · rw [if_neg he] at h3; cases h3
      · by_cases hw : hasEnvVarSet c "NO_HOME" = true ∧ c.workingDir ≠ ""
        · rw [if_pos hw] at h3
          exact Or.inr (Or.inl ⟨hw.1, hw.2, List.mem_singleton.mp h3⟩)
        · rw [if_neg hw] at h3; cases h3
    · by_cases hh : hasEnvVarSet c "HOME" = true ∨ hasEnvVarSet c "NO_HOME" = true
      · rw [if_pos hh] at h2; cases h2
      · rw [if_neg hh] at h2
        rcases not_or.mp hh with ⟨hA, hB⟩
        exact Or.inr (Or.inr (Or.inl ⟨Bool.eq_false_iff.mpr hA,
          Bool.eq_false_iff.mpr hB, List.mem_singleton.mp h2⟩))
  · exact Or.inr (Or.inr (Or.inr (List.mem_singleton.mp h1)))

theorem mem_envPatchesAll {ns : String} {cs : List Container} {op : PatchOperation}
    (h : op ∈ envPatchesAll ns cs) :
    ∃ i c, (i, c) ∈ enumIdx 0 cs ∧ op ∈ envPatchesForContainer ns i c := by
  unfold envPatchesAll at h
  obtain ⟨l, hl, hop⟩ := List.mem_flatten.mp h
  obtain ⟨p, hp, hleq⟩ := List.mem_map.mp hl
  rw [← hleq] at hop
  exact ⟨p.1, p.2, hp, hop⟩

theorem mem_nodeSelectorPatches {pod : Pod} {op : PatchOperation}
    (h : op ∈ nodeSelectorPatches pod) :
    (pod.nodeSelector = none ∧ op = nodeSelectorInitOp) ∨
    (lookupKV (pod.nodeSelector.getD []) "kubernetes.wmcloud.org/nfs-mounted" = none ∧
      op = nfsLabelOp) := by
  unfold nodeSelectorPatches at h
  rcases List.mem_append.mp h with h1 | h1
  · cases hns : pod.nodeSelector with
    | none => rw [hns] at h1; exact Or.inl ⟨rfl, List.mem_singleton.mp h1⟩
    | some m => rw [hns] at h1; cases h1
  · cases hlk : lookupKV (pod.nodeSelector.getD []) "kubernetes.wmcloud.org/nfs-mounted" with
    | none => rw [hlk] at h1; exact Or.inr ⟨rfl, List.mem_singleton.mp h1⟩
    | some v => rw [hlk] at h1; cases h1

theorem findBadHostPath_eq_none :
    ∀ {l : List PodVolume},
    (∀ v ∈ l, ∀ hp, v.hostPath = some hp →
      v.name = "home" ∧ hp.path = "/data/project") →
    ∀ s, findBadHostPath s l = none := by
  intro l
  induction l with
  | nil => intro _ s; rfl
  | cons w rest ih =>
    intro h s
    rw [findBadHostPath]
    cases hw : w.hostPath with
    | none => exact ih (fun v hv => h v (List.mem_cons_of_mem _ hv)) (s + 1)
    | some hp =>
      have hok := h w (List.mem_cons_self _ _) hp hw
      show (if w.name ≠ "home" ∨ hp.path ≠ "/data/project" then some (s, w)
            else findBadHostPath (s + 1) rest) = none
      rw [if_neg (by simp [hok.1, hok.2])]
      exact ih (fun v hv => h v (List.mem_cons_of_mem _ hv)) (s + 1)

theorem findBadHostPath_ne_none :
    ∀ {l : List PodVolume} {v : PodVolume} {hp : HostPathSource},
    v ∈ l → v.hostPath = some hp →
    (v.name ≠ "home" ∨ hp.path ≠ "/data/project") →
    ∀ s, findBadHostPath s l ≠ none := by
  intro l
  induction l with
  | nil => intro v hp hv; cases hv
  | cons w rest ih =>
    intro v hp hv hhp hbad s
    rw [findBadHostPath]
    rcases List.mem_cons.mp hv with h1 | h1
    · subst h1
      rw [hhp]
      show (if v.name ≠ "home" ∨ hp.path ≠ "/data/project" then some (s, v)
            else findBadHostPath (s + 1) rest) ≠ none
      rw [if_pos hbad]
      simp
    · cases hw : w.hostPath with
      | none => exact ih h1 hhp hbad (s + 1)
      | some hpw =>
        show (if w.name ≠ "home" ∨ hpw.path ≠ "/data/project" then some (s, w)
              else findBadHostPath (s + 1) rest) ≠ none
        by_cases hc : w.name ≠ "home" ∨ hpw.path ≠ "/data/project"
        · rw [if_pos hc]; simp
        · rw [if_neg hc]; exact ih h1 hhp hbad (s + 1)

theorem handleAdmission_shape (adm : VolumeAdmission)
    (me : List PatchOperation → Option String) (req : AdmissionRequest) :
    ((HandleAdmissionWith adm me req).Allowed = true ∧
      (HandleAdmissionWith adm me req).UID = req.UID) ∨
    ∃ msg, HandleAdmissionWith adm me req = denyResponse req.UID msg := by
  cases hobj : req.Object with
  | error e =>
    simp only [HandleAdmissionWith, hobj]
    exact Or.inr ⟨e, rfl⟩
  | ok pod =>
    simp only [HandleAdmissionWith, hobj]
    by_cases h1 : getLabelOrDefault pod MountConfigLabel MountAll ≠ MountAll ∧
        getLabelOrDefault pod MountConfigLabel MountAll ≠ MountNone
    · rw [if_pos h1]
      exact Or.inr ⟨_, rfl⟩
    · rw [if_neg h1]
      by_cases h2 : ¬ hasPrefixStr req.Namespace "tool-" = true
      · rw [if_pos h2]
        exact Or.inr ⟨_, rfl⟩
      · rw [if_neg h2]
        cases hbad : findBadHostPath 0 pod.volumes with
        | some p =>
          cases p with
          | mk idx volume => exact Or.inr ⟨_, rfl⟩
        | none =>
          by_cases h3 : getLabelOrDefault pod MountConfigLabel MountAll = MountNone
          · rw [if_pos h3]
            exact Or.inl ⟨rfl, rfl⟩
          · rw [if_neg h3]
            cases hme : me (buildPatches adm req.Namespace pod) with
            | some e => exact Or.inr ⟨e, rfl⟩
            | none => exact Or.inl ⟨rfl, rfl⟩

theorem handleAdmission_allPath (adm : VolumeAdmission)
    (me : List PatchOperation → Option String) (req : AdmissionRequest) (pod : Pod)
    (hdec : req.Object = Except.ok pod)
    (hmc : getLabelOrDefault pod MountConfigLabel MountAll = MountAll)
    (hns : hasPrefixStr req.Namespace "tool-" = true)
    (hhp : findBadHostPath 0 pod.volumes = none) :
    HandleAdmissionWith adm me req =
      match me (buildPatches adm req.Namespace pod) with
      | some e => denyResponse req.UID e
      | none => ⟨req.UID, true, "Volumes mounted", some "JSONPatch",
                 some (buildPatches adm req.Namespace pod)⟩ := by
  simp only [HandleAdmissionWith, hdec]
  rw [if_neg (by simp [hmc])]
  rw [if_neg (by simp [hns])]
  rw [hhp]
  rw [if_neg (by rw [hmc]; simp [MountAll, MountNone])]

theorem handleAdmission_nonePath (adm : VolumeAdmission)
    (me : List PatchOperation → Option String) (req : AdmissionRequest) (pod : Pod)
    (hdec : req.Object = Except.ok pod)
    (hmc : getLabelOrDefault pod MountConfigLabel MountAll = MountNone)
    (hns : hasPrefixStr req.Namespace "tool-" = true)
    (hhp : findBadHostPath 0 pod.volumes = none) :
    HandleAdmissionWith adm me req =
      ⟨req.UID, true, "No volumes requested", some "JSONPatch",
       match me (volumesInitPatches pod) with
       | some _ => none
       | none => some (volumesInitPatches pod)⟩ := by
  simp only [HandleAdmissionWith, hdec]
  rw [if_neg (by simp [hmc])]
  rw [if_neg (by simp [hns])]
  rw [hhp]
  rw [if_pos hmc]

/-- C1: for every admission request whose Pod decodes successfully and
declares some volume with a hostPath source whose (name, path) pair is not
exactly ("home", "/data/project"), HandleAdmission produces a denial (the
response never has Allowed = true) and attaches no patch, regardless of the
request namespace, the mount-mode label value, or any other field of the
Pod. -/
theorem C1_hostPath_security (adm : VolumeAdmission)
    (me : List PatchOperation → Option String) (req : AdmissionRequest)
    (pod : Pod) (v : PodVolume) (hp : HostPathSource)
    (hdec : req.Object = Except.ok pod)
    (hv : v ∈ pod.volumes) (hhp : v.hostPath = some hp)
    (hbad : v.name ≠ "home" ∨ hp.path ≠ "/data/project") :
    (HandleAdmissionWith adm me req).Allowed = false ∧
    (HandleAdmissionWith adm me req).Patch = none := by
  simp only [HandleAdmissionWith, hdec]
  by_cases h1 : getLabelOrDefault pod MountConfigLabel MountAll ≠ MountAll ∧
      getLabelOrDefault pod MountConfigLabel MountAll ≠ MountNone
  · rw [if_pos h1]
    exact ⟨rfl, rfl⟩
  · rw [if_neg h1]
    by_cases h2 : ¬ hasPrefixStr req.Namespace "tool-" = true
    · rw [if_pos h2]
      exact ⟨rfl, rfl⟩
    · rw [if_neg h2]
      cases hbadf : findBadHostPath 0 pod.volumes with
      | some p =>
        cases p with
        | mk idx volume => exact ⟨rfl, rfl⟩
      | none => exact absurd hbadf (findBadHostPath_ne_none hv hhp hbad 0)

/-- Witness for C1 at a concrete input: a Pod declaring a hostPath volume
("evil", "/etc") in a tool namespace is denied with no patch. -/
theorem C1_hostPath_security_witness :
    (HandleAdmissionWith referenceAdmission marshalNever
      ⟨"u1", "tool-test",
       Except.ok ⟨[], [⟨"evil", some ⟨"/etc", ""⟩⟩], [plainContainer], none⟩⟩).Allowed
      = false ∧
    (HandleAdmissionWith referenceAdmission marshalNever
      ⟨"u1", "tool-test",
       Except.ok ⟨[], [⟨"evil", some ⟨"/etc", ""⟩⟩], [plainContainer], none⟩⟩).Patch
      = none :=
  C1_hostPath_security referenceAdmission marshalNever _ _
    ⟨"evil", some ⟨"/etc", ""⟩⟩ ⟨"/etc", ""⟩ rfl (by decide) rfl
    (Or.inl (by decide))

/-- C3: for every request whose namespace does not start with the prefix
"tool-", and for every decodable Pod content, the outcome is a denial
(Allowed is never true) and the response carries no patch. -/
theorem C3_namespace_gate (adm : VolumeAdmission)
    (me : List PatchOperation → Option String) (req : AdmissionRequest)
    (pod : Pod)
    (hdec : req.Object = Except.ok pod)
    (hns : hasPrefixStr req.Namespace "tool-" = false) :
    (HandleAdmissionWith adm me req).Allowed = false ∧
    (HandleAdmissionWith adm me req).Patch = none := by
  simp only [HandleAdmissionWith, hdec]
  by_cases h1 : getLabelOrDefault pod MountConfigLabel MountAll ≠ MountAll ∧
      getLabelOrDefault pod MountConfigLabel MountAll ≠ MountNone
  · rw [if_pos h1]
    exact ⟨rfl, rfl⟩
  · rw [if_neg h1]
    rw [if_pos (by simp [hns])]
    exact ⟨rfl, rfl⟩

/-- Witness for C3 at a concrete input: namespace "maintain-kubeusers". -/
theorem C3_namespace_gate_witness :
    (HandleAdmissionWith referenceAdmission marshalNever
      ⟨"u3", "maintain-kubeusers", Except.ok plainPod⟩).Allowed = false ∧
    (HandleAdmissionWith referenceAdmission marshalNever
      ⟨"u3", "maintain-kubeusers", Except.ok plainPod⟩).Patch = none :=
  C3_namespace_gate referenceAdmission marshalNever _ plainPod rfl (by decide)

/-- C10: for every request and every volume policy (and every serialization
outcome), whenever the produced AdmissionResponse does not have Allowed =
true, the response carries no patch and no patch-type indicator, and its
UID equals the request UID. -/
theorem C10_deny_shape (adm : VolumeAdmission)
    (me : List PatchOperation → Option String) (req : AdmissionRequest)
    (h : (HandleAdmissionWith adm me req).Allowed = false) :
    (HandleAdmissionWith adm me req).Patch = none ∧
    (HandleAdmissionWith adm me req).PatchType = none ∧
    (HandleAdmissionWith adm me req).UID = req.UID := by
  rcases handleAdmission_shape adm me req with ⟨ht, _⟩ | ⟨msg, heq⟩
  · rw [ht] at h
    exact Bool.noConfusion h
  · rw [heq]
    exact ⟨rfl, rfl, rfl⟩

/-- Witness for C10 at a concrete input: a request whose Pod bytes fail to
decode is denied and the response has no patch, no patch type, and the
request UID. -/
theorem C10_deny_shape_witness :
    (HandleAdmissionWith referenceAdmission marshalNever
      ⟨"u10", "tool-test", Except.error "unexpected end of JSON input"⟩).Patch = none ∧
    (HandleAdmissionWith referenceAdmission marshalNever
      ⟨"u10", "tool-test", Except.error "unexpected end of JSON input"⟩).PatchType = none ∧
    (HandleAdmissionWith referenceAdmission marshalNever
      ⟨"u10", "tool-test", Except.error "unexpected end of JSON input"⟩).UID = "u10" :=
  C10_deny_shape referenceAdmission marshalNever
    ⟨"u10", "tool-test", Except.error "unexpected end of JSON input"⟩ rfl

/-- C6: for every request that passes validation (tool namespace, no
disallowed hostPath volume) whose mount-mode label resolves to "none", the
outcome is Allow and the emitted patch contains at most the single
operation initializing the volumes array (emitted exactly when the Pod
declared zero volumes), and nothing else. -/
theorem C6_mount_none (adm : VolumeAdmission) (req : AdmissionRequest)
    (pod : Pod)
    (hdec : req.Object = Except.ok pod)
    (hns : hasPrefixStr req.Namespace "tool-" = true)
    (hhp : ∀ v ∈ pod.volumes, ∀ hp, v.hostPath = some hp →
      v.name = "home" ∧ hp.path = "/data/project")
    (hmc : getLabelOrDefault pod MountConfigLabel MountAll = MountNone) :
    (HandleAdmission adm req).Allowed = true ∧
    (HandleAdmission adm req).Patch = some (volumesInitPatches pod) ∧
    (volumesInitPatches pod).length ≤ 1 ∧
    ∀ op ∈ volumesInitPatches pod, op = volumesInitPatch := by
  have hfind := findBadHostPath_eq_none hhp 0
  have heq := handleAdmission_nonePath adm marshalNever req pod
    hdec hmc hns hfind
  refine ⟨?_, ?_, ?_, ?_⟩
  · show (HandleAdmissionWith adm marshalNever req).Allowed = true
    rw [heq]
  · show (HandleAdmissionWith adm marshalNever req).Patch = _
    rw [heq]
    rfl
  · unfold volumesInitPatches
    split <;> simp
  · intro op hop
    exact (mem_volumesInitPatches hop).1

/-- Witness for C6 at a concrete input: a Pod labelled mount-storage=none
with zero volumes is allowed with exactly the volumes-array init patch. -/
theorem C6_mount_none_witness :
    (HandleAdmission referenceAdmission
      ⟨"u6", "tool-test",
       Except.ok ⟨[("toolforge.org/mount-storage", "none")], [],
         [plainContainer], none⟩⟩).Allowed = true ∧
    (HandleAdmission referenceAdmission
      ⟨"u6", "tool-test",
       Except.ok ⟨[("toolforge.org/mount-storage", "none")], [],
         [plainContainer], none⟩⟩).Patch
      = some (volumesInitPatches
          ⟨[("toolforge.org/mount-storage", "none")], [], [plainContainer], none⟩) ∧
    (volumesInitPatches
      ⟨[("toolforge.org/mount-storage", "none")], [], [plainContainer], none⟩).length ≤ 1 ∧
    ∀ op ∈ volumesInitPatches
      ⟨[("toolforge.org/mount-storage", "none")], [], [plainContainer], none⟩,
      op = volumesInitPatch :=
  C6_mount_none referenceAdmission _ _ rfl (by decide)
    (by intro v hv hp hhp; simp at hv) (by decide)

/-- C8: the claim states that a patch-serialization failure always yields a
denial, on the mount-mode-"none" path as well as on the full path.  On the
"none" path the source builds the error response but then unconditionally
overwrites review.Response with the allow response (missing return), so the
code actually answers Allowed = true with no patch bytes: this theorem
evaluates the engine at that failing input. -/
theorem C8_nonePath_marshal_failure :
    HandleAdmissionWith referenceAdmission (fun _ => some "marshal failure")
      ⟨"u8", "tool-test",
       Except.ok ⟨[("toolforge.org/mount-storage", "none")], [],
         [plainContainer], none⟩⟩
    = ⟨"u8", true, "No volumes requested", some "JSONPatch", none⟩ := by
  decide

theorem tddAddOp_inj {ns : String} {i j : Nat}
    (h : tddAddOp ns j = tddAddOp ns i) : j = i := by
  unfold tddAddOp at h
  injection h with _ hpath _
  exact containerEnvDashPath_inj hpath

theorem count_tdd_envPatchesForContainer (ns : String) (i j : Nat) (c : Container) :
    (envPatchesForContainer ns j c).count (tddAddOp ns i)
      = if j = i then 1 else 0 := by
  unfold envPatchesForContainer
  rw [List.count_append, List.count_append, List.count_append]
  have h1 : (if c.env = none then [envInitOp j] else
      ([] : List PatchOperation)).count (tddAddOp ns i) = 0 := by
    apply List.count_eq_zero.mpr
    intro hmem
    split at hmem
    · have heq := List.mem_singleton.mp hmem
      simp [tddAddOp, envInitOp] at heq
    · cases hmem
  have h2 : (if hasEnvVarSet c "NO_HOME" = true ∧ c.workingDir ≠ "" then
      [workingDirRemoveOp j] else ([] : List PatchOperation)).count (tddAddOp ns i)
      = 0 := by
    apply List.count_eq_zero.mpr
    intro hmem
    split at hmem
    · have heq := List.mem_singleton.mp hmem
      simp [tddAddOp, workingDirRemoveOp] at heq
    · cases hmem
  have h3 : (if hasEnvVarSet c "HOME" = true ∨ hasEnvVarSet c "NO_HOME" = true then
      ([] : List PatchOperation) else [homeAddOp ns j]).count (tddAddOp ns i)
      = 0 := by
    apply List.count_eq_zero.mpr
    intro hmem
    split at hmem
    · cases hmem
    · have heq := List.mem_singleton.mp hmem
      simp [tddAddOp, homeAddOp] at heq
  rw [h1, h2, h3]
  by_cases hji : j = i
  · subst hji
    simp [List.count_singleton]
  · rw [List.count_singleton, if_neg (fun hbeq =>
      hji (tddAddOp_inj (beq_iff_eq.mp hbeq))), if_neg hji]

theorem count_tdd_envSegment (ns : String) (i : Nat) :
    ∀ (cs : List Container) (s : Nat),
    (((enumIdx s cs).map (fun p => envPatchesForContainer ns p.1 p.2)).flatten).count
        (tddAddOp ns i)
      = if s ≤ i ∧ i - s < cs.length then 1 else 0 := by
  intro cs
  induction cs with
  | nil =>
    intro s
    rw [show enumIdx s ([] : List Container) = [] from rfl]
    rw [if_neg (by simp)]
    rfl
  | cons c rest ih =>
    intro s
    rw [show enumIdx s (c :: rest) = (s, c) :: enumIdx (s + 1) rest from rfl]
    rw [List.map_cons, List.flatten_cons, List.count_append]
    rw [count_tdd_envPatchesForContainer, ih (s + 1)]
    by_cases hsi : s = i
    · subst hsi
      rw [if_pos rfl, if_neg (by omega), if_pos ⟨Nat.le_refl s, by simp⟩]
    · rw [if_neg hsi]
      by_cases hrange : s + 1 ≤ i ∧ i - (s + 1) < rest.length
      · rw [if_pos hrange, if_pos ⟨by omega, by simp; omega⟩]
      · rw [if_neg hrange, if_neg (by simp; omega)]

theorem tdd_not_mem_volumesInit {pod : Pod} {ns : String} {i : Nat} :
    tddAddOp ns i ∉ volumesInitPatches pod := by
  intro h
  have heq := (mem_volumesInitPatches h).1
  simp [tddAddOp, volumesInitPatch] at heq

theorem tdd_not_mem_vmInit {cs : List Container} {ns : String} {i : Nat} :
    tddAddOp ns i ∉ vmInitPatches cs := by
  intro h
  obtain ⟨j, c, _, _, heq⟩ := mem_vmInitPatches h
  simp [tddAddOp, vmInitOp] at heq

theorem tdd_not_mem_policy {vols : List Volume} {pod : Pod} {ns : String} {i : Nat} :
    tddAddOp ns i ∉ policyVolumePatches vols pod := by
  intro h
  obtain ⟨v, _, _, h1 | h2⟩ := mem_policyVolumePatches h
  · simp [tddAddOp, volumeAddOp] at h1
  · obtain ⟨j, c, _, _, heq⟩ := h2
    simp [tddAddOp, mountAddOp] at heq

theorem tdd_not_mem_nodeSelector {pod : Pod} {ns : String} {i : Nat} :
    tddAddOp ns i ∉ nodeSelectorPatches pod := by
  intro h
  rcases mem_nodeSelectorPatches h with ⟨_, heq⟩ | ⟨_, heq⟩
  · simp [tddAddOp, nodeSelectorInitOp] at heq
  · simp [tddAddOp, nfsLabelOp] at heq

theorem tdd_count_buildPatches (adm : VolumeAdmission) (ns : String) (pod : Pod)
    (i : Nat) (hi : i < pod.containers.length) :
    (buildPatches adm ns pod).count (tddAddOp ns i) = 1 := by
  unfold buildPatches
  rw [List.count_append, List.count_append, List.count_append, List.count_append]
  rw [List.count_eq_zero.mpr tdd_not_mem_volumesInit,
    List.count_eq_zero.mpr tdd_not_mem_vmInit,
    List.count_eq_zero.mpr tdd_not_mem_policy,
    List.count_eq_zero.mpr tdd_not_mem_nodeSelector]
  unfold envPatchesAll
  rw [count_tdd_envSegment, if_pos ⟨Nat.zero_le i, by omega⟩]

theorem mem_buildPatches {adm : VolumeAdmission} {ns : String} {pod : Pod}
    {op : PatchOperation} (h : op ∈ buildPatches adm ns pod) :
    (op = volumesInitPatch ∧ pod.volumes = []) ∨
    (∃ i c, (i, c) ∈ enumIdx 0 pod.containers ∧ c.volumeMounts = [] ∧
      op = vmInitOp i) ∨
    (∃ v ∈ adm.Volumes, hasVolumeByName pod v.name = false ∧
      (op = volumeAddOp v ∨
       ∃ i c, (i, c) ∈ enumIdx 0 pod.containers ∧ hasMountByPath c v.path = false ∧
         op = mountAddOp i v)) ∨
    (∃ i c, (i, c) ∈ enumIdx 0 pod.containers ∧
      op ∈ envPatchesForContainer ns i c) ∨
    ((pod.nodeSelector = none ∧ op = nodeSelectorInitOp) ∨
     (lookupKV (pod.nodeSelector.getD []) "kubernetes.wmcloud.org/nfs-mounted" = none ∧
       op = nfsLabelOp)) := by
  unfold buildPatches at h
  rcases List.mem_append.mp h with h1 | h1
  · rcases List.mem_append.mp h1 with h2 | h2
    · rcases List.mem_append.mp h2 with h3 | h3
      · rcases List.mem_append.mp h3 with h4 | h4
        · exact Or.inl (mem_volumesInitPatches h4)
        · exact Or.inr (Or.inl (mem_vmInitPatches h4))
      · exact Or.inr (Or.inr (Or.inl (mem_policyVolumePatches h3)))
    · exact Or.inr (Or.inr (Or.inr (Or.inl (mem_envPatchesAll h2))))
  · exact Or.inr (Or.inr (Or.inr (Or.inr (mem_nodeSelectorPatches h1))))

/-- C5: for every allowed request on the mount-mode "all" path, every
container receives exactly one added env entry with name TOOL_DATA_DIR and
value "/data/project/" ++ tenant, independent of HOME or NO_HOME, where
tenant is the request namespace with its leading "tool-" prefix stripped,
and the same tenant value is used for every emitted HOME value. -/
theorem C5_tdd_totality (adm : VolumeAdmission) (req : AdmissionRequest)
    (pod : Pod) (i : Nat)
    (hdec : req.Object = Except.ok pod)
    (hmc : getLabelOrDefault pod MountConfigLabel MountAll = MountAll)
    (hns : hasPrefixStr req.Namespace "tool-" = true)
    (hhp : ∀ v ∈ pod.volumes, ∀ hp, v.hostPath = some hp →
      v.name = "home" ∧ hp.path = "/data/project")
    (hi : i < pod.containers.length) :
    (HandleAdmission adm req).Patch = some (buildPatches adm req.Namespace pod) ∧
    (buildPatches adm req.Namespace pod).count (tddAddOp req.Namespace i) = 1 ∧
    tddAddOp req.Namespace i = ⟨"add", containerEnvDashPath i,
      some (PatchValue.envVar ⟨"TOOL_DATA_DIR",
        "/data/project/" ++ String.mk (req.Namespace.data.drop 5)⟩)⟩ ∧
    ∀ op ∈ buildPatches adm req.Namespace pod, ∀ v,
      op.value = some (PatchValue.envVar ⟨"HOME", v⟩) →
      v = "/data/project/" ++ String.mk (req.Namespace.data.drop 5) := by
  have hfind := findBadHostPath_eq_none hhp 0
  have heq := handleAdmission_allPath adm marshalNever req pod
    hdec hmc hns hfind
  refine ⟨?_, tdd_count_buildPatches adm req.Namespace pod i hi, ?_, ?_⟩
  · show (HandleAdmissionWith adm marshalNever req).Patch = _
    rw [heq]
    rfl
  · unfold tddAddOp toolHome
    rw [replaceFirst_toolPrefix hns]
  · intro op hop v hv
    rcases mem_buildPatches hop with hA | hB | hC | hD | hE
    · rw [hA.1] at hv
      simp [volumesInitPatch] at hv
    · obtain ⟨j, c, _, _, hop'⟩ := hB
      rw [hop'] at hv
      simp [vmInitOp] at hv
    · obtain ⟨w, _, _, h1 | h2⟩ := hC
      · rw [h1] at hv
        simp [volumeAddOp] at hv
      · obtain ⟨j, c, _, _, hop'⟩ := h2
        rw [hop'] at hv
        simp [mountAddOp] at hv
    · obtain ⟨j, c, _, hmem⟩ := hD
      rcases mem_envPatchesForContainer hmem with ⟨_, hop'⟩ | ⟨_, _, hop'⟩ |
        ⟨_, _, hop'⟩ | hop'
      · rw [hop'] at hv
        simp [envInitOp] at hv
      · rw [hop'] at hv
        simp [workingDirRemoveOp] at hv
      · rw [hop'] at hv
        simp [homeAddOp] at hv
        rw [← hv]
        unfold toolHome
        rw [replaceFirst_toolPrefix hns]
      · rw [hop'] at hv
        simp [tddAddOp] at hv
    · rcases hE with ⟨_, hop'⟩ | ⟨_, hop'⟩
      · rw [hop'] at hv
        simp [nodeSelectorInitOp] at hv
      · rw [hop'] at hv
        simp [nfsLabelOp] at hv

/-- Witness for C5 at a concrete input: the plain one-container Pod in
namespace tool-test. -/
theorem C5_tdd_totality_witness :
    (HandleAdmission referenceAdmission
      ⟨"u5", "tool-test", Except.ok plainPod⟩).Patch
      = some (buildPatches referenceAdmission "tool-test" plainPod) ∧
    (buildPatches referenceAdmission "tool-test" plainPod).count
      (tddAddOp "tool-test" 0) = 1 ∧
    tddAddOp "tool-test" 0 = ⟨"add", containerEnvDashPath 0,
      some (PatchValue.envVar ⟨"TOOL_DATA_DIR",
        "/data/project/" ++ String.mk (("tool-test" : String).data.drop 5)⟩)⟩ ∧
    ∀ op ∈ buildPatches referenceAdmission "tool-test" plainPod, ∀ v,
      op.value = some (PatchValue.envVar ⟨"HOME", v⟩) →
      v = "/data/project/" ++ String.mk (("tool-test" : String).data.drop 5) :=
  C5_tdd_totality referenceAdmission ⟨"u5", "tool-test", Except.ok plainPod⟩
    plainPod 0 rfl rfl (by decide)
    (by intro v hv hp hhp; simp [plainPod] at hv) (by decide)

/-- C4: for every allowed request on the mount-mode "all" path and container
index i: if container i already defines HOME, no emitted patch operation
adds, removes, or replaces HOME for that container (no operation at that
container's env-append path carries a HOME value, every remove targets only
a workingDir path, and no replace is ever emitted); if container i defines
NO_HOME, no patch adds HOME for it, and if its workingDir is non-empty a
remove of its workingDir path is emitted. -/
theorem C4_home_precedence (adm : VolumeAdmission) (req : AdmissionRequest)
    (pod : Pod) (i : Nat) (c : Container)
    (hdec : req.Object = Except.ok pod)
    (hmc : getLabelOrDefault pod MountConfigLabel MountAll = MountAll)
    (hns : hasPrefixStr req.Namespace "tool-" = true)
    (hhp : ∀ v ∈ pod.volumes, ∀ hp, v.hostPath = some hp →
      v.name = "home" ∧ hp.path = "/data/project")
    (hc : pod.containers[i]? = some c) :
    (HandleAdmission adm req).Patch = some (buildPatches adm req.Namespace pod) ∧
    (hasEnvVarSet c "HOME" = true →
      ∀ op ∈ buildPatches adm req.Namespace pod,
        op.path = containerEnvDashPath i →
        ∀ v, op.value ≠ some (PatchValue.envVar ⟨"HOME", v⟩)) ∧
    (hasEnvVarSet c "NO_HOME" = true →
      (∀ op ∈ buildPatches adm req.Namespace pod,
        op.path = containerEnvDashPath i →
        ∀ v, op.value ≠ some (PatchValue.envVar ⟨"HOME", v⟩)) ∧
      (c.workingDir ≠ "" →
        workingDirRemoveOp i ∈ buildPatches adm req.Namespace pod)) ∧
    (∀ op ∈ buildPatches adm req.Namespace pod,
      op.op = "add" ∨ (op.op = "remove" ∧ ∃ j, op.path = containerWorkingDirPath j)) := by
  have hfind := findBadHostPath_eq_none hhp 0
  have heq := handleAdmission_allPath adm marshalNever req pod
    hdec hmc hns hfind
  have hnoHome : (hasEnvVarSet c "HOME" = true ∨ hasEnvVarSet c "NO_HOME" = true) →
      ∀ op ∈ buildPatches adm req.Namespace pod,
        op.path = containerEnvDashPath i →
        ∀ v, op.value ≠ some (PatchValue.envVar ⟨"HOME", v⟩) := by
    intro hskip op hop hpath v hv
    rcases mem_buildPatches hop with hA | hB | hC | hD | hE
    · rw [hA.1] at hv
      simp [volumesInitPatch] at hv
    · obtain ⟨j, c', _, _, hop'⟩ := hB
      rw [hop'] at hv
      simp [vmInitOp] at hv
    · obtain ⟨w, _, _, h1 | h2⟩ := hC
      · rw [h1] at hv
        simp [volumeAddOp] at hv
      · obtain ⟨j, c', _, _, hop'⟩ := h2
        rw [hop'] at hv
        simp [mountAddOp] at hv
    · obtain ⟨j, c', hjc, hmem⟩ := hD
      rcases mem_envPatchesForContainer hmem with ⟨_, hop'⟩ | ⟨_, _, hop'⟩ |
        ⟨hHomeF, hNoF, hop'⟩ | hop'
      · rw [hop'] at hv
        simp [envInitOp] at hv
      · rw [hop'] at hv
        simp [workingDirRemoveOp] at hv
      · rw [hop'] at hpath
        have hji : j = i := containerEnvDashPath_inj (by exact hpath)
        subst hji
        obtain ⟨_, hget⟩ := mem_enumIdx hjc
        rw [Nat.sub_zero] at hget
        rw [hc] at hget
        injection hget with hcc
        subst hcc
        rcases hskip with hs | hs
        · rw [hs] at hHomeF
          exact Bool.noConfusion hHomeF
        · rw [hs] at hNoF
          exact Bool.noConfusion hNoF
      · rw [hop'] at hv
        simp [tddAddOp] at hv
    · rcases hE with ⟨_, hop'⟩ | ⟨_, hop'⟩
      · rw [hop'] at hv
        simp [nodeSelectorInitOp] at hv
      · rw [hop'] at hv
        simp [nfsLabelOp] at hv
  refine ⟨?_, fun hH => hnoHome (Or.inl hH), fun hN => ⟨hnoHome (Or.inr hN), ?_⟩, ?_⟩
  · show (HandleAdmissionWith adm marshalNever req).Patch = _
    rw [heq]
    rfl
  · intro hwd
    have henum : (i, c) ∈ enumIdx 0 pod.containers := by
      have hmem := get_mem_enumIdx 0 hc
      rw [Nat.zero_add] at hmem
      exact hmem
    have hmem : workingDirRemoveOp i ∈ envPatchesForContainer req.Namespace i c := by
      unfold envPatchesForContainer
      apply List.mem_append.mpr
      apply Or.inl
      apply List.mem_append.mpr
      apply Or.inl
      apply List.mem_append.mpr
      apply Or.inr
      rw [if_pos ⟨hN, hwd⟩]
      exact List.mem_singleton.mpr rfl
    unfold buildPatches
    apply List.mem_append.mpr
    apply Or.inl
    apply List.mem_append.mpr
    apply Or.inr
    unfold envPatchesAll
    apply List.mem_flatten.mpr
    exact ⟨envPatchesForContainer req.Namespace i c,
      List.mem_map.mpr ⟨(i, c), henum, rfl⟩, hmem⟩
  · intro op hop
    rcases mem_buildPatches hop with hA | hB | hC | hD | hE
    · rw [hA.1]
      exact Or.inl rfl
    · obtain ⟨j, _, _, _, hop'⟩ := hB
      rw [hop']
      exact Or.inl rfl
    · obtain ⟨w, _, _, h1 | h2⟩ := hC
      · rw [h1]
        exact Or.inl rfl
      · obtain ⟨j, _, _, _, hop'⟩ := h2
        rw [hop']
        exact Or.inl rfl
    · obtain ⟨j, c', _, hmem⟩ := hD
      rcases mem_envPatchesForContainer hmem with ⟨_, hop'⟩ | ⟨_, _, hop'⟩ |
        ⟨_, _, hop'⟩ | hop'
      · rw [hop']
        exact Or.inl rfl
      · rw [hop']
        exact Or.inr ⟨rfl, j, rfl⟩
      · rw [hop']
        exact Or.inl rfl
      · rw [hop']
        exact Or.inl rfl
    · rcases hE with ⟨_, hop'⟩ | ⟨_, hop'⟩
      · rw [hop']
        exact Or.inl rfl
      · rw [hop']
        exact Or.inl rfl

/-- Witness for C4 at a concrete input: a container with NO_HOME set and a
non-empty workingDir in namespace tool-test. -/
theorem C4_home_precedence_witness :
    (HandleAdmission referenceAdmission
      ⟨"u4", "tool-test",
       Except.ok ⟨[], [],
         [⟨"m", "/some/path", some [⟨"NO_HOME", "x"⟩], []⟩], none⟩⟩).Patch
      = some (buildPatches referenceAdmission "tool-test"
          ⟨[], [], [⟨"m", "/some/path", some [⟨"NO_HOME", "x"⟩], []⟩], none⟩) ∧
    (hasEnvVarSet ⟨"m", "/some/path", some [⟨"NO_HOME", "x"⟩], []⟩ "HOME" = true →
      ∀ op ∈ buildPatches referenceAdmission "tool-test"
          ⟨[], [], [⟨"m", "/some/path", some [⟨"NO_HOME", "x"⟩], []⟩], none⟩,
        op.path = containerEnvDashPath 0 →
        ∀ v, op.value ≠ some (PatchValue.envVar ⟨"HOME", v⟩)) ∧
    (hasEnvVarSet ⟨"m", "/some/path", some [⟨"NO_HOME", "x"⟩], []⟩ "NO_HOME" = true →
      (∀ op ∈ buildPatches referenceAdmission "tool-test"
          ⟨[], [], [⟨"m", "/some/path", some [⟨"NO_HOME", "x"⟩], []⟩], none⟩,
        op.path = containerEnvDashPath 0 →
        ∀ v, op.value ≠ some (PatchValue.envVar ⟨"HOME", v⟩)) ∧
      ((⟨"m", "/some/path", some [⟨"NO_HOME", "x"⟩], []⟩ : Container).workingDir ≠ "" →
        workingDirRemoveOp 0 ∈ buildPatches referenceAdmission "tool-test"
          ⟨[], [], [⟨"m", "/some/path", some [⟨"NO_HOME", "x"⟩], []⟩], none⟩)) ∧
    (∀ op ∈ buildPatches referenceAdmission "tool-test"
        ⟨[], [], [⟨"m", "/some/path", some [⟨"NO_HOME", "x"⟩], []⟩], none⟩,
      op.op = "add" ∨ (op.op = "remove" ∧ ∃ j, op.path = containerWorkingDirPath j)) :=
  C4_home_precedence referenceAdmission
    ⟨"u4", "tool-test",
     Except.ok ⟨[], [], [⟨"m", "/some/path", some [⟨"NO_HOME", "x"⟩], []⟩], none⟩⟩
    ⟨[], [], [⟨"m", "/some/path", some [⟨"NO_HOME", "x"⟩], []⟩], none⟩ 0
    ⟨"m", "/some/path", some [⟨"NO_HOME", "x"⟩], []⟩
    rfl rfl (by decide) (by intro v hv hp hhp; simp at hv) rfl

/-- C2 counterexample: with the reference two-volume policy, the plain Pod
in namespace tool-test is allowed on the mount-mode "all" path, but
re-running HandleAdmission on the patched Pod does not yield an empty (or
none-equivalent) patch: the second run is denied with no patch at all,
because the first patch injected the etc-ldap hostPath volume, which fails
the hostPath check. -/
theorem C2_idempotency_counterexample :
    (HandleAdmission referenceAdmission
      ⟨"u2", "tool-test", Except.ok plainPod⟩).Allowed = true ∧
    (HandleAdmission referenceAdmission
      ⟨"u2", "tool-test", Except.ok plainPod⟩).Patch ≠ none ∧
    (HandleAdmission referenceAdmission
      ⟨"u2", "tool-test", Except.ok (applyPatch plainPod
        ((HandleAdmission referenceAdmission
          ⟨"u2", "tool-test", Except.ok plainPod⟩).Patch.getD []))⟩).Allowed
      = false ∧
    (HandleAdmission referenceAdmission
      ⟨"u2", "tool-test", Except.ok (applyPatch plainPod
        ((HandleAdmission referenceAdmission
          ⟨"u2", "tool-test", Except.ok plainPod⟩).Patch.getD []))⟩).Patch
      = none := by
  decide

/-- C2 amended: re-application is not idempotent.  With the reference
policy the second run on the patched Pod denies outright (see the
counterexample); and in general, an allowed mount-mode-"all" run on a Pod
one of whose containers already lists the TOOL_DATA_DIR entry still emits
the TOOL_DATA_DIR append for that container, duplicating the entry
(volumes and volume mounts are guarded by name and path, but the
TOOL_DATA_DIR env append is unconditional). -/
theorem C2_amended_tdd_duplication (adm : VolumeAdmission)
    (req : AdmissionRequest) (pod : Pod) (i : Nat) (c : Container)
    (hdec : req.Object = Except.ok pod)
    (hmc : getLabelOrDefault pod MountConfigLabel MountAll = MountAll)
    (hns : hasPrefixStr req.Namespace "tool-" = true)
    (hhp : ∀ v ∈ pod.volumes, ∀ hp, v.hostPath = some hp →
      v.name = "home" ∧ hp.path = "/data/project")
    (hc : pod.containers[i]? = some c)
    (_htdd : EnvVar.mk "TOOL_DATA_DIR" (toolHome req.Namespace) ∈ c.env.getD []) :
    (HandleAdmission adm req).Patch = some (buildPatches adm req.Namespace pod) ∧
    tddAddOp req.Namespace i ∈ buildPatches adm req.Namespace pod := by
  have hfind := findBadHostPath_eq_none hhp 0
  have heq := handleAdmission_allPath adm marshalNever req pod
    hdec hmc hns hfind
  constructor
  · show (HandleAdmissionWith adm marshalNever req).Patch = _
    rw [heq]
    rfl
  · have henum : (i, c) ∈ enumIdx 0 pod.containers := by
      have hmem := get_mem_enumIdx 0 hc
      rw [Nat.zero_add] at hmem
      exact hmem
    have hmem : tddAddOp req.Namespace i ∈ envPatchesForContainer req.Namespace i c := by
      unfold envPatchesForContainer
      apply List.mem_append.mpr
      exact Or.inr (List.mem_singleton.mpr rfl)
    unfold buildPatches
    apply List.mem_append.mpr
    apply Or.inl
    apply List.mem_append.mpr
    apply Or.inr
    unfold envPatchesAll
    apply List.mem_flatten.mpr
    exact ⟨envPatchesForContainer req.Namespace i c,
      List.mem_map.mpr ⟨(i, c), henum, rfl⟩, hmem⟩

/-- Witness for the amended C2: a container that already carries the
TOOL_DATA_DIR entry for tenant "test" still receives the duplicate
TOOL_DATA_DIR append. -/
theorem C2_amended_tdd_duplication_witness :
    (HandleAdmission referenceAdmission
      ⟨"u2b", "tool-test",
       Except.ok ⟨[], [],
         [⟨"m", "", some [⟨"TOOL_DATA_DIR", "/data/project/test"⟩], []⟩], none⟩⟩).Patch
      = some (buildPatches referenceAdmission "tool-test"
          ⟨[], [], [⟨"m", "", some [⟨"TOOL_DATA_DIR", "/data/project/test"⟩], []⟩],
            none⟩) ∧
    tddAddOp "tool-test" 0 ∈ buildPatches referenceAdmission "tool-test"
      ⟨[], [], [⟨"m", "", some [⟨"TOOL_DATA_DIR", "/data/project/test"⟩], []⟩],
        none⟩ :=
  C2_amended_tdd_duplication referenceAdmission
    ⟨"u2b", "tool-test",
     Except.ok ⟨[], [],
       [⟨"m", "", some [⟨"TOOL_DATA_DIR", "/data/project/test"⟩], []⟩], none⟩⟩
    ⟨[], [], [⟨"m", "", some [⟨"TOOL_DATA_DIR", "/data/project/test"⟩], []⟩], none⟩
    0 ⟨"m", "", some [⟨"TOOL_DATA_DIR", "/data/project/test"⟩], []⟩
    rfl rfl (by decide) (by intro v hv hp hhp; simp at hv) rfl (by decide)

/-- C9 counterexample: the Pod exactly as the claim describes it (zero
volumes, one container with no env, no volumeMounts, no workingDir,
mount-mode label unset, nothing else declared, so no nodeSelector) is
allowed, but the emitted patch has 11 operations, not 10: the claim's own
enumeration lists eleven kinds of operations (including the nodeSelector
init) while asserting a total of 10. -/
theorem C9_patch_length_counterexample :
    (HandleAdmission referenceAdmission
      ⟨"u9", "tool-test", Except.ok plainPod⟩).Allowed = true ∧
    ((HandleAdmission referenceAdmission
      ⟨"u9", "tool-test", Except.ok plainPod⟩).Patch.getD []).length = 11 ∧
    ((HandleAdmission referenceAdmission
      ⟨"u9", "tool-test", Except.ok plainPod⟩).Patch.getD []).length ≠ 10 := by
  decide

/-- C9 amended: the reference test Pod additionally carries a pre-existing
unrelated nodeSelector entry, so no nodeSelector init is emitted and the
allowed patch is exactly these 10 operations in order: init volumes, init
volumeMounts, the home volume and its mount, the etc-ldap volume and its
mount, init env, HOME, TOOL_DATA_DIR, and the nfs-mounted label. -/
theorem C9_reference_scenario :
    HandleAdmission referenceAdmission
      ⟨"u9b", "tool-test", Except.ok nodeSelectorPod⟩
    = ⟨"u9b", true, "Volumes mounted", some "JSONPatch", some
        [volumesInitPatch,
         vmInitOp 0,
         volumeAddOp ⟨"home", "/data/project", "", false⟩,
         mountAddOp 0 ⟨"home", "/data/project", "", false⟩,
         volumeAddOp ⟨"etc-ldap", "/etc/ldap", "", true⟩,
         mountAddOp 0 ⟨"etc-ldap", "/etc/ldap", "", true⟩,
         envInitOp 0,
         homeAddOp "tool-test" 0,
         tddAddOp "tool-test" 0,
         nfsLabelOp]⟩ := by
  decide

/-- C7: in every allowed outcome, every add operation whose path ends in
the array-append marker is preceded earlier in the same patch list by an
add operation creating the parent array, unless that array already exists
on the input Pod. -/
theorem C7_dash_ordering (adm : VolumeAdmission) (req : AdmissionRequest)
    (pod : Pod) (pre suf : List PatchOperation) (op : PatchOperation)
    (hdec : req.Object = Except.ok pod)
    (hP : (HandleAdmission adm req).Patch = some (pre ++ op :: suf))
    (hadd : op.op = "add")
    (hdash : endsWithDash op.path = true) :
    (∃ op2 ∈ pre, op2.op = "add" ∧ op2.path = dropDash op.path) ∨
    arrayExists pod (dropDash op.path) := by
  have hP' : (HandleAdmissionWith adm marshalNever req).Patch = some (pre ++ op :: suf) := hP
  simp only [HandleAdmissionWith, hdec] at hP'
  by_cases h1 : getLabelOrDefault pod MountConfigLabel MountAll ≠ MountAll ∧
      getLabelOrDefault pod MountConfigLabel MountAll ≠ MountNone
  · rw [if_pos h1] at hP'
    exact Option.noConfusion hP'
  · rw [if_neg h1] at hP'
    by_cases h2 : ¬ hasPrefixStr req.Namespace "tool-" = true
    · rw [if_pos h2] at hP'
      exact Option.noConfusion hP'
    · rw [if_neg h2] at hP'
      cases hbadf : findBadHostPath 0 pod.volumes with
      | some p =>
        cases p with
        | mk idx vol =>
          rw [hbadf] at hP'
          exact Option.noConfusion hP'
      | none =>
        rw [hbadf] at hP'
        by_cases h3 : getLabelOrDefault pod MountConfigLabel MountAll = MountNone
        · rw [if_pos h3] at hP'
          have hX : volumesInitPatches pod = pre ++ op :: suf := Option.some.inj hP'
          have hopmem : op ∈ volumesInitPatches pod := by
            rw [hX]
            exact List.mem_append.mpr (Or.inr (List.mem_cons_self _ _))
          have hvo := (mem_volumesInitPatches hopmem).1
          subst hvo
          exact absurd hdash (by decide)
        · rw [if_neg h3] at hP'
          have hX : buildPatches adm req.Namespace pod = pre ++ op :: suf :=
            Option.some.inj hP'
          have hopmem : op ∈ buildPatches adm req.Namespace pod := by
            rw [hX]
            exact List.mem_append.mpr (Or.inr (List.mem_cons_self _ _))
          rcases mem_buildPatches hopmem with hA | hB | hC | hD | hE
          · rw [hA.1] at hdash
            exact absurd hdash (by decide)
          · obtain ⟨i, c, _, _, hop'⟩ := hB
            subst hop'
            rw [show (vmInitOp i).path = containerVmInitPath i from rfl,
              endsWithDash_vmInitPath i] at hdash
            exact Bool.noConfusion hdash
          · obtain ⟨v, hv, hvn, h1c | h2c⟩ := hC
            · subst h1c
              cases hpv : pod.volumes with
              | nil =>
                have hsplit : volumesInitPatches pod ++
                    (vmInitPatches pod.containers ++
                      (policyVolumePatches adm.Volumes pod ++
                        (envPatchesAll req.Namespace pod.containers ++
                          nodeSelectorPatches pod)))
                    = pre ++ volumeAddOp v :: suf := by
                  rw [← hX]
                  unfold buildPatches
                  simp only [List.append_assoc]
                have hnotin : volumeAddOp v ∉ volumesInitPatches pod := by
                  intro hmem
                  have heq := (mem_volumesInitPatches hmem).1
                  simp [volumeAddOp, volumesInitPatch] at heq
                have hsubpre := mem_left_of_split hsplit hnotin
                have hinitmem : volumesInitPatch ∈ volumesInitPatches pod := by
                  unfold volumesInitPatches
                  rw [if_pos (by rw [hpv]; rfl)]
                  exact List.mem_singleton.mpr rfl
                exact Or.inl ⟨volumesInitPatch, hsubpre _ hinitmem, rfl, rfl⟩
              | cons w ws =>
                refine Or.inr (Or.inl ⟨rfl, ?_⟩)
                rw [hpv]
                simp
            · obtain ⟨i, c, henum, hm, hop'⟩ := h2c
              subst hop'
              have hdropEq : dropDash (containerVmDashPath i) = containerVmInitPath i := by
                rw [containerVmDashPath_eq, dropDash_dash]
              obtain ⟨_, hget⟩ := mem_enumIdx henum
              rw [Nat.sub_zero] at hget
              cases hvme : c.volumeMounts with
              | nil =>
                have hsplit : (volumesInitPatches pod ++ vmInitPatches pod.containers) ++
                    (policyVolumePatches adm.Volumes pod ++
                      (envPatchesAll req.Namespace pod.containers ++
                        nodeSelectorPatches pod))
                    = pre ++ mountAddOp i v :: suf := by
                  rw [← hX]
                  unfold buildPatches
                  simp only [List.append_assoc]
                have hnotin : mountAddOp i v ∉
                    volumesInitPatches pod ++ vmInitPatches pod.containers := by
                  intro hmem
                  rcases List.mem_append.mp hmem with hm1 | hm1
                  · have heq := (mem_volumesInitPatches hm1).1
                    simp [mountAddOp, volumesInitPatch] at heq
                  · obtain ⟨j, c', _, _, heq⟩ := mem_vmInitPatches hm1
                    simp [mountAddOp, vmInitOp] at heq
                have hsubpre := mem_left_of_split hsplit hnotin
                have hinitmem : vmInitOp i ∈
                    volumesInitPatches pod ++ vmInitPatches pod.containers := by
                  apply List.mem_append.mpr
                  apply Or.inr
                  unfold vmInitPatches
                  apply List.mem_filterMap.mpr
                  exact ⟨(i, c), henum, by rw [show (i, c).2 = c from rfl, hvme]; rfl⟩
                refine Or.inl ⟨vmInitOp i, hsubpre _ hinitmem, rfl, ?_⟩
                show (vmInitOp i).path = dropDash (mountAddOp i v).path
                rw [show (mountAddOp i v).path = containerVmDashPath i from rfl, hdropEq]
                rfl
              | cons m ms =>
                refine Or.inr (Or.inr (Or.inl ⟨i, c, hget, ?_, ?_⟩))
                · show dropDash (mountAddOp i v).path = containerVmInitPath i
                  rw [show (mountAddOp i v).path = containerVmDashPath i from rfl, hdropEq]
                · rw [hvme]
                  simp
          · obtain ⟨i, c, henum, hmemc⟩ := hD
            obtain ⟨_, hget⟩ := mem_enumIdx henum
            rw [Nat.sub_zero] at hget
            have hdropEq : dropDash (containerEnvDashPath i) = containerEnvInitPath i := by
              rw [containerEnvDashPath_eq, dropDash_dash]
            rcases mem_envPatchesForContainer hmemc with ⟨_, hop'⟩ | ⟨_, _, hop'⟩ |
              ⟨_, _, hop'⟩ | hop'
            · subst hop'
              rw [show (envInitOp i).path = containerEnvInitPath i from rfl,
                endsWithDash_envInitPath i] at hdash
              exact Bool.noConfusion hdash
            · subst hop'
              simp [workingDirRemoveOp] at hadd
            · subst hop'
              cases henv : c.env with
              | some l =>
                refine Or.inr (Or.inr (Or.inr ⟨i, c, hget, ?_, ?_⟩))
                · show dropDash (homeAddOp req.Namespace i).path = containerEnvInitPath i
                  rw [show (homeAddOp req.Namespace i).path = containerEnvDashPath i from rfl,
                    hdropEq]
                · rw [henv]
                  simp
              | none =>
                obtain ⟨E1, E2, hsplitEnum⟩ := List.append_of_mem henum
                have hDeq : envPatchesAll req.Namespace pod.containers
                    = (E1.map (fun p => envPatchesForContainer req.Namespace p.1 p.2)).flatten
                      ++ (envPatchesForContainer req.Namespace i c
                        ++ (E2.map (fun p => envPatchesForContainer req.Namespace p.1 p.2)).flatten) := by
                  unfold envPatchesAll
                  rw [hsplitEnum, List.map_append, List.map_cons, List.flatten_append,
                    List.flatten_cons]
                have hchunk : envPatchesForContainer req.Namespace i c
                    = [envInitOp i] ++
                      ((if hasEnvVarSet c "NO_HOME" = true ∧ c.workingDir ≠ "" then
                          [workingDirRemoveOp i] else []) ++
                        ((if hasEnvVarSet c "HOME" = true ∨ hasEnvVarSet c "NO_HOME" = true then
                            ([] : List PatchOperation) else [homeAddOp req.Namespace i]) ++
                          [tddAddOp req.Namespace i])) := by
                  unfold envPatchesForContainer
                  rw [if_pos henv]
                  simp only [List.append_assoc]
                have hsplit : (volumesInitPatches pod ++
                    (vmInitPatches pod.containers ++
                      (policyVolumePatches adm.Volumes pod ++
                        ((E1.map (fun p => envPatchesForContainer req.Namespace p.1 p.2)).flatten
                          ++ [envInitOp i])))) ++
                    ((if hasEnvVarSet c "NO_HOME" = true ∧ c.workingDir ≠ "" then
                        [workingDirRemoveOp i] else []) ++
                      ((if hasEnvVarSet c "HOME" = true ∨ hasEnvVarSet c "NO_HOME" = true then
                          ([] : List PatchOperation) else [homeAddOp req.Namespace i]) ++
                        ([tddAddOp req.Namespace i] ++
                          ((E2.map (fun p => envPatchesForContainer req.Namespace p.1 p.2)).flatten
                            ++ nodeSelectorPatches pod))))
                    = pre ++ homeAddOp req.Namespace i :: suf := by
                  rw [← hX]
                  unfold buildPatches
                  rw [hDeq, hchunk]
                  simp only [List.append_assoc]
                have hnotin : homeAddOp req.Namespace i ∉
                    volumesInitPatches pod ++
                    (vmInitPatches pod.containers ++
                      (policyVolumePatches adm.Volumes pod ++
                        ((E1.map (fun p => envPatchesForContainer req.Namespace p.1 p.2)).flatten
                          ++ [envInitOp i]))) := by
                  intro hmem
                  rcases List.mem_append.mp hmem with hm1 | hm1
                  · have heq := (mem_volumesInitPatches hm1).1
                    simp [homeAddOp, volumesInitPatch] at heq
                  rcases List.mem_append.mp hm1 with hm2 | hm2
                  · obtain ⟨j, c', _, _, heq⟩ := mem_vmInitPatches hm2
                    simp [homeAddOp, vmInitOp] at heq
                  rcases List.mem_append.mp hm2 with hm3 | hm3
                  · obtain ⟨w, _, _, heq1 | heq2⟩ := mem_policyVolumePatches hm3
                    · simp [homeAddOp, volumeAddOp] at heq1
                    · obtain ⟨j, c', _, _, heq⟩ := heq2
                      simp [homeAddOp, mountAddOp] at heq
                  rcases List.mem_append.mp hm3 with hm4 | hm4
                  · obtain ⟨l, hl, hopin⟩ := List.mem_flatten.mp hm4
                    obtain ⟨q, hq, hleq⟩ := List.mem_map.mp hl
                    rw [← hleq] at hopin
                    have hjlt : q.1 < i := by
                      have := enumIdx_split_fst_lt hsplitEnum q hq
                      exact this
                    rcases mem_envPatchesForContainer hopin with ⟨_, heq⟩ | ⟨_, _, heq⟩ |
                      ⟨_, _, heq⟩ | heq
                    · simp [homeAddOp, envInitOp] at heq
                    · simp [homeAddOp, workingDirRemoveOp] at heq
                    · have hpath : containerEnvDashPath i = containerEnvDashPath q.1 := by
                        have := congrArg PatchOperation.path heq
                        exact this
                      have := containerEnvDashPath_inj hpath
                      omega
                    · have hpath : containerEnvDashPath i = containerEnvDashPath q.1 := by
                        have := congrArg PatchOperation.path heq
                        exact this
                      have := containerEnvDashPath_inj hpath
                      omega
                  · have heq := List.mem_singleton.mp hm4
                    simp [homeAddOp, envInitOp] at heq
                have hsubpre := mem_left_of_split hsplit hnotin
                have hinitmem : envInitOp i ∈
                    volumesInitPatches pod ++
                    (vmInitPatches pod.containers ++
                      (policyVolumePatches adm.Volumes pod ++
                        ((E1.map (fun p => envPatchesForContainer req.Namespace p.1 p.2)).flatten
                          ++ [envInitOp i]))) := by
                  apply List.mem_append.mpr
                  apply Or.inr
                  apply List.mem_append.mpr
                  apply Or.inr
                  apply List.mem_append.mpr
                  apply Or.inr
                  apply List.mem_append.mpr
                  exact Or.inr (List.mem_singleton.mpr rfl)
                refine Or.inl ⟨envInitOp i, hsubpre _ hinitmem, rfl, ?_⟩
                show (envInitOp i).path = dropDash (homeAddOp req.Namespace i).path
                rw [show (homeAddOp req.Namespace i).path = containerEnvDashPath i from rfl,
                  hdropEq]
                rfl
            · subst hop'
              cases henv : c.env with
              | some l =>
                refine Or.inr (Or.inr (Or.inr ⟨i, c, hget, ?_, ?_⟩))
                · show dropDash (tddAddOp req.Namespace i).path = containerEnvInitPath i
                  rw [show (tddAddOp req.Namespace i).path = containerEnvDashPath i from rfl,
                    hdropEq]
                · rw [henv]
                  simp
              | none =>
                obtain ⟨E1, E2, hsplitEnum⟩ := List.append_of_mem henum
                have hDeq : envPatchesAll req.Namespace pod.containers
                    = (E1.map (fun p => envPatchesForContainer req.Namespace p.1 p.2)).flatten
                      ++ (envPatchesForContainer req.Namespace i c
                        ++ (E2.map (fun p => envPatchesForContainer req.Namespace p.1 p.2)).flatten) := by
                  unfold envPatchesAll
                  rw [hsplitEnum, List.map_append, List.map_cons, List.flatten_append,
                    List.flatten_cons]
                have hchunk : envPatchesForContainer req.Namespace i c
                    = [envInitOp i] ++
                      ((if hasEnvVarSet c "NO_HOME" = true ∧ c.workingDir ≠ "" then
                          [workingDirRemoveOp i] else []) ++
                        ((if hasEnvVarSet c "HOME" = true ∨ hasEnvVarSet c "NO_HOME" = true then
                            ([] : List PatchOperation) else [homeAddOp req.Namespace i]) ++
                          [tddAddOp req.Namespace i])) := by
                  unfold envPatchesForContainer
                  rw [if_pos henv]
                  simp only [List.append_assoc]
                have hsplit : (volumesInitPatches pod ++
                    (vmInitPatches pod.containers ++
                      (policyVolumePatches adm.Volumes pod ++
                        ((E1.map (fun p => envPatchesForContainer req.Namespace p.1 p.2)).flatten
                          ++ [envInitOp i])))) ++
                    ((if hasEnvVarSet c "NO_HOME" = true ∧ c.workingDir ≠ "" then
                        [workingDirRemoveOp i] else []) ++
                      ((if hasEnvVarSet c "HOME" = true ∨ hasEnvVarSet c "NO_HOME" = true then
                          ([] : List PatchOperation) else [homeAddOp req.Namespace i]) ++
                        ([tddAddOp req.Namespace i] ++
                          ((E2.map (fun p => envPatchesForContainer req.Namespace p.1 p.2)).flatten
                            ++ nodeSelectorPatches pod))))
                    = pre ++ tddAddOp req.Namespace i :: suf := by
                  rw [← hX]
                  unfold buildPatches
                  rw [hDeq, hchunk]
                  simp only [List.append_assoc]
                have hnotin : tddAddOp req.Namespace i ∉
                    volumesInitPatches pod ++
                    (vmInitPatches pod.containers ++
                      (policyVolumePatches adm.Volumes pod ++
                        ((E1.map (fun p => envPatchesForContainer req.Namespace p.1 p.2)).flatten
                          ++ [envInitOp i]))) := by
                  intro hmem
                  rcases List.mem_append.mp hmem with hm1 | hm1
                  · exact tdd_not_mem_volumesInit hm1
                  rcases List.mem_append.mp hm1 with hm2 | hm2
                  · exact tdd_not_mem_vmInit hm2
                  rcases List.mem_append.mp hm2 with hm3 | hm3
                  · exact tdd_not_mem_policy hm3
                  rcases List.mem_append.mp hm3 with hm4 | hm4
                  · obtain ⟨l, hl, hopin⟩ := List.mem_flatten.mp hm4
                    obtain ⟨q, hq, hleq⟩ := List.mem_map.mp hl
                    rw [← hleq] at hopin
                    have hjlt : q.1 < i := enumIdx_split_fst_lt hsplitEnum q hq
                    rcases mem_envPatchesForContainer hopin with ⟨_, heq⟩ | ⟨_, _, heq⟩ |
                      ⟨_, _, heq⟩ | heq
                    · simp [tddAddOp, envInitOp] at heq
                    · simp [tddAddOp, workingDirRemoveOp] at heq
                    · have hpath : containerEnvDashPath i = containerEnvDashPath q.1 := by
                        have := congrArg PatchOperation.path heq
                        exact this
                      have := containerEnvDashPath_inj hpath
                      omega
                    · have := tddAddOp_inj heq.symm
                      omega
                  · have heq := List.mem_singleton.mp hm4
                    simp [tddAddOp, envInitOp] at heq
                have hsubpre := mem_left_of_split hsplit hnotin
                have hinitmem : envInitOp i ∈
                    volumesInitPatches pod ++
                    (vmInitPatches pod.containers ++
                      (policyVolumePatches adm.Volumes pod ++
                        ((E1.map (fun p => envPatchesForContainer req.Namespace p.1 p.2)).flatten
                          ++ [envInitOp i]))) := by
                  apply List.mem_append.mpr
                  apply Or.inr
                  apply List.mem_append.mpr
                  apply Or.inr
                  apply List.mem_append.mpr
                  apply Or.inr
                  apply List.mem_append.mpr
                  exact Or.inr (List.mem_singleton.mpr rfl)
                refine Or.inl ⟨envInitOp i, hsubpre _ hinitmem, rfl, ?_⟩
                show (envInitOp i).path = dropDash (tddAddOp req.Namespace i).path
                rw [show (tddAddOp req.Namespace i).path = containerEnvDashPath i from rfl,
                  hdropEq]
                rfl
          · rcases hE with ⟨_, hop'⟩ | ⟨_, hop'⟩
            · subst hop'
              exact absurd hdash (by decide)
            · subst hop'
              exact absurd hdash (by decide)

/-- Witness for C7 at a concrete input: in the 11-operation patch for the
plain Pod, the home volume append (position 2) is preceded by the
volumes-array init. -/
theorem C7_dash_ordering_witness :
    (∃ op2 ∈ [volumesInitPatch, vmInitOp 0], op2.op = "add" ∧
      op2.path = dropDash (volumeAddOp ⟨"home", "/data/project", "", false⟩).path) ∨
    arrayExists plainPod
      (dropDash (volumeAddOp ⟨"home", "/data/project", "", false⟩).path) :=
  C7_dash_ordering referenceAdmission ⟨"u7", "tool-test", Except.ok plainPod⟩
    plainPod [volumesInitPatch, vmInitOp 0]
    [mountAddOp 0 ⟨"home", "/data/project", "", false⟩,
     volumeAddOp ⟨"etc-ldap", "/etc/ldap", "", true⟩,
     mountAddOp 0 ⟨"etc-ldap", "/etc/ldap", "", true⟩,
     envInitOp 0,
     homeAddOp "tool-test" 0,
     tddAddOp "tool-test" 0,
     nodeSelectorInitOp,
     nfsLabelOp]
    (volumeAddOp ⟨"home", "/data/project", "", false⟩)
    rfl (by decide) rfl (by decide)
